import Mathlib

/-!
Verification development for the zaptextencoder repository: a zap text
encoder that renders one structured logging event into a single text line
of space-separated key=value pairs with JSON-compatible escaping.

The encoder implementation file itself is not part of the shipped sources;
only its test file and an example caller are.  The definitions below are
therefore modelled from the natural-language specification of the encoder
(buffer as a byte list, per-kind value formatting, recursive array
encoding, string escaping, fallback structured serialization, entry
composition), and they are pinned at every point the test file observes:
each concrete expectation of the test file is reproved against the model.
Bytes are modelled as natural numbers below 256, buffers as lists of bytes.
-/

/-- UTF-8 encoding of one character as a list of byte values, by the
standard arithmetic on the code point. -/
def charBytes (c : Char) : List Nat :=
  let n := c.toNat
  if n < 128 then [n]
  else if n < 2048 then [192 + n / 64, 128 + n % 64]
  else if n < 65536 then [224 + n / 4096, 128 + (n / 64) % 64, 128 + n % 64]
  else [240 + n / 262144, 128 + (n / 4096) % 64, 128 + (n / 64) % 64, 128 + n % 64]

/-- The UTF-8 bytes of a string, as a list of natural numbers. -/
def strBytes (s : String) : List Nat :=
  s.data.foldr (fun c acc => charBytes c ++ acc) []

/-- Lowercase hexadecimal digit character code for a value below 16,
mirroring the hex table of the escaper. -/
def hexDigit (n : Nat) : Nat :=
  if n < 10 then 48 + n else 87 + n

/-- Modelled from the spec: the per-byte ASCII escaping rule of the missing
escaper (safeAddString / safeAddByteString in the absent text_encoder.go).
Printable ASCII other than backslash and double quote is emitted verbatim
(so angle brackets and ampersand pass through); backslash and double quote
are backslash-escaped; newline, carriage return and tab use the short
escapes; every other byte below 0x20 becomes a six-byte lowercase
backslash-u escape. -/
def escapeAsciiByte (b : Nat) : List Nat :=
  if 32 ≤ b ∧ b ≠ 92 ∧ b ≠ 34 then [b]
  else if b = 92 ∨ b = 34 then [92, b]
  else if b = 10 then [92, 110]
  else if b = 13 then [92, 114]
  else if b = 9 then [92, 116]
  else [92, 117, 48, 48, hexDigit (b / 16), hexDigit (b % 16)]

/-- The six output bytes standing for one undecodable input byte: the
backslash-u escape of the Unicode replacement character. -/
def replacementEscape : List Nat := [92, 117, 102, 102, 102, 100]

/-- A UTF-8 continuation byte. -/
def contB (b : Nat) : Bool := 128 ≤ b && b ≤ 191

/-- Head of a valid two-byte UTF-8 sequence (leader C2..DF plus one
continuation byte); overlong leaders C0 and C1 are rejected. -/
def accept2 (b0 b1 : Nat) : Bool :=
  194 ≤ b0 && b0 ≤ 223 && contB b1

/-- Head of a valid three-byte UTF-8 sequence; the second byte range
depends on the leader so that overlong encodings and surrogate code
points are rejected, as in the Go rune decoder. -/
def accept3 (b0 b1 b2 : Nat) : Bool :=
  ((b0 == 224 && 160 ≤ b1 && b1 ≤ 191) ||
   (225 ≤ b0 && b0 ≤ 236 && contB b1) ||
   (b0 == 237 && 128 ≤ b1 && b1 ≤ 159) ||
   (238 ≤ b0 && b0 ≤ 239 && contB b1)) && contB b2

/-- Head of a valid four-byte UTF-8 sequence; the second byte range
depends on the leader so that overlong encodings and code points past
U+10FFFF are rejected. -/
def accept4 (b0 b1 b2 b3 : Nat) : Bool :=
  ((b0 == 240 && 144 ≤ b1 && b1 ≤ 191) ||
   (241 ≤ b0 && b0 ≤ 243 && contB b1) ||
   (b0 == 244 && 128 ≤ b1 && b1 ≤ 143)) && contB b2 && contB b3

/-- Whether some valid multi-byte UTF-8 sequence starts at byte b0 given
the remaining input. -/
def headValid (b0 : Nat) : List Nat → Bool
  | b1 :: b2 :: b3 :: _ => accept2 b0 b1 || accept3 b0 b1 b2 || accept4 b0 b1 b2 b3
  | [b1, b2] => accept2 b0 b1 || accept3 b0 b1 b2
  | [b1] => accept2 b0 b1
  | [] => false

/-- Modelled from the spec: the byte-input escaper (safeAddByteString of
the absent text_encoder.go).  ASCII bytes go through the per-byte rule;
valid multi-byte UTF-8 sequences pass through unmodified; any byte at
which no valid sequence starts is replaced by the escaped Unicode
replacement character and the scan advances one byte, so escaping never
fails. -/
def safeAddByteString : List Nat → List Nat
  | [] => []
  | b0 :: rest =>
    if b0 < 128 then escapeAsciiByte b0 ++ safeAddByteString rest
    else
      match rest with
      | b1 :: b2 :: b3 :: rest3 =>
        if accept2 b0 b1 then b0 :: b1 :: safeAddByteString (b2 :: b3 :: rest3)
        else if accept3 b0 b1 b2 then b0 :: b1 :: b2 :: safeAddByteString (b3 :: rest3)
        else if accept4 b0 b1 b2 b3 then b0 :: b1 :: b2 :: b3 :: safeAddByteString rest3
        else replacementEscape ++ safeAddByteString (b1 :: b2 :: b3 :: rest3)
      | [b1, b2] =>
        if accept2 b0 b1 then b0 :: b1 :: safeAddByteString [b2]
        else if accept3 b0 b1 b2 then [b0, b1, b2]
        else replacementEscape ++ safeAddByteString [b1, b2]
      | [b1] =>
        if accept2 b0 b1 then [b0, b1]
        else replacementEscape ++ safeAddByteString [b1]
      | [] => replacementEscape

/-- Modelled from the spec: the string-input escaper (safeAddString of the
absent text_encoder.go).  The source has two separate loops, one over a
string and one over raw bytes; both walk the underlying bytes with the
same rule, so this is a second copy of the same byte scan, kept separate
so that the agreement of the two paths is a provable statement. -/
def safeAddString : List Nat → List Nat
  | [] => []
  | b0 :: rest =>
    if b0 < 128 then escapeAsciiByte b0 ++ safeAddString rest
    else
      match rest with
      | b1 :: b2 :: b3 :: rest3 =>
        if accept2 b0 b1 then b0 :: b1 :: safeAddString (b2 :: b3 :: rest3)
        else if accept3 b0 b1 b2 then b0 :: b1 :: b2 :: safeAddString (b3 :: rest3)
        else if accept4 b0 b1 b2 b3 then b0 :: b1 :: b2 :: b3 :: safeAddString rest3
        else replacementEscape ++ safeAddString (b1 :: b2 :: b3 :: rest3)
      | [b1, b2] =>
        if accept2 b0 b1 then b0 :: b1 :: safeAddString [b2]
        else if accept3 b0 b1 b2 then [b0, b1, b2]
        else replacementEscape ++ safeAddString [b1, b2]
      | [b1] =>
        if accept2 b0 b1 then [b0, b1]
        else replacementEscape ++ safeAddString [b1]
      | [] => replacementEscape

/-- Strip trailing decimal zeros from a scaled natural number: the pair
(n, e) stands for n / 10 ^ e. -/
def stripZerosNat : Nat → Nat → Nat × Nat
  | n, 0 => (n, 0)
  | n, e + 1 => if n % 10 = 0 then stripZerosNat (n / 10) e else (n, e + 1)

/-- Render the exact decimal value num / 10 ^ exp with no exponent, no
trailing fractional zeros, and no decimal point when the value is
integral. -/
def formatDecimal (num : Int) (exp : Nat) : String :=
  let p := stripZerosNat num.natAbs exp
  let sign : String := if num < 0 then "-" else ""
  if p.2 = 0 then sign ++ toString p.1
  else
    let ds := (toString p.1).data
    let padded := List.replicate (p.2 + 1 - ds.length) '0' ++ ds
    sign ++ String.mk (padded.take (padded.length - p.2)) ++ "." ++
      String.mk (padded.drop (padded.length - p.2))

/-- Modelled from the spec: the value space of a Go float as the encoder
observes it.  The absent text_encoder.go formats floats with the shortest
round-tripping decimal, so a finite value is carried here directly as that
exact decimal, num / 10 ^ exp; NaN and the two infinities are the three
special tokens. -/
inductive GoFloat where
  | nan : GoFloat
  | inf (neg : Bool) : GoFloat
  | finite (num : Int) (exp : Nat) : GoFloat

/-- Modelled from the spec: float rendering — NaN, +Inf and -Inf as those
literal tokens, finite values as plain decimal with integral values
rendered without a fractional point. -/
def formatFloat : GoFloat → String
  | .nan => "NaN"
  | .inf false => "+Inf"
  | .inf true => "-Inf"
  | .finite num exp => formatDecimal num exp

/-- Sign test used by the complex formatter to decide whether to write an
explicit plus before the imaginary part. -/
def goFloatNonNeg : GoFloat → Bool
  | .nan => false
  | .inf neg => !neg
  | .finite num _ => decide (0 ≤ num)

/-- Standard base64 alphabet, index to character code. -/
def b64char (n : Nat) : Nat :=
  if n < 26 then 65 + n
  else if n < 52 then 97 + (n - 26)
  else if n < 62 then 48 + (n - 52)
  else if n = 62 then 43 else 47

/-- Standard base64 encoding with padding, used by the binary field kind. -/
def base64Enc : List Nat → List Nat
  | a :: b :: c :: rest =>
    let w := a * 65536 + b * 256 + c
    b64char (w / 262144) :: b64char ((w / 4096) % 64) ::
      b64char ((w / 64) % 64) :: b64char (w % 64) :: base64Enc rest
  | [a, b] =>
    let w := a * 1024 + b * 4
    [b64char (w / 4096), b64char ((w / 64) % 64), b64char (w % 64), 61]
  | [a] =>
    let w := a * 16
    [b64char (w / 64), b64char (w % 64), 61, 61]
  | [] => []

/-- Per-byte escaping rule of the fallback structural serializer, which
follows the standard library JSON escaper: unlike the text escaper it
also turns angle brackets and ampersand into backslash-u escapes. -/
def jsonEscapeByte (b : Nat) : List Nat :=
  if 32 ≤ b ∧ b ≠ 92 ∧ b ≠ 34 ∧ b ≠ 60 ∧ b ≠ 62 ∧ b ≠ 38 then [b]
  else if b = 92 ∨ b = 34 then [92, b]
  else if b = 10 then [92, 110]
  else if b = 13 then [92, 114]
  else if b = 9 then [92, 116]
  else [92, 117, 48, 48, hexDigit (b / 16), hexDigit (b % 16)]

/-- Escaping loop of the fallback structural serializer over the bytes of
a string, with the same multi-byte UTF-8 handling as the text escaper. -/
def jsonEscape : List Nat → List Nat
  | [] => []
  | b0 :: rest =>
    if b0 < 128 then jsonEscapeByte b0 ++ jsonEscape rest
    else
      match rest with
      | b1 :: b2 :: b3 :: rest3 =>
        if accept2 b0 b1 then b0 :: b1 :: jsonEscape (b2 :: b3 :: rest3)
        else if accept3 b0 b1 b2 then b0 :: b1 :: b2 :: jsonEscape (b3 :: rest3)
        else if accept4 b0 b1 b2 b3 then b0 :: b1 :: b2 :: b3 :: jsonEscape rest3
        else replacementEscape ++ jsonEscape (b1 :: b2 :: b3 :: rest3)
      | [b1, b2] =>
        if accept2 b0 b1 then b0 :: b1 :: jsonEscape [b2]
        else if accept3 b0 b1 b2 then [b0, b1, b2]
        else replacementEscape ++ jsonEscape [b1, b2]
      | [b1] =>
        if accept2 b0 b1 then [b0, b1]
        else replacementEscape ++ jsonEscape [b1]
      | [] => replacementEscape

mutual
/-- Modelled from the spec: the generic structured representation used by
the fallback serializer for values with no dedicated kind — null, boolean,
number, string, array, object.  A Go nil and a nil-valued typed reference
both arrive here as null.  Arrays and object member lists are bespoke
list types so that all recursion below is structural. -/
inductive JsonVal where
  | null : JsonVal
  | boolJ (b : Bool) : JsonVal
  | numJ (i : Int) : JsonVal
  | strJ (s : String) : JsonVal
  | arrJ (els : JsonArr) : JsonVal
  | objJ (mem : JsonObj) : JsonVal

/-- Element list of a structured array value. -/
inductive JsonArr where
  | nil : JsonArr
  | cons (hd : JsonVal) (tl : JsonArr) : JsonArr

/-- Member list of a structured object value, in the order supplied by the
caller. -/
inductive JsonObj where
  | nil : JsonObj
  | cons (k : String) (v : JsonVal) (tl : JsonObj) : JsonObj
end

mutual
/-- Modelled from the spec: serialization of a structured value — null,
true and false as literal tokens, numbers in decimal, strings double
quoted with the JSON escaper, arrays bracketed and comma-joined, objects
braced with quoted keys and comma-joined members, no trailing comma. -/
def jsonSerialize : JsonVal → List Nat
  | .null => [110, 117, 108, 108]
  | .boolJ true => [116, 114, 117, 101]
  | .boolJ false => [102, 97, 108, 115, 101]
  | .numJ i => strBytes (toString i)
  | .strJ s => 34 :: jsonEscape (strBytes s) ++ [34]
  | .arrJ els => 91 :: jsonArrSerialize els true ++ [93]
  | .objJ mem => 123 :: jsonObjSerialize mem true ++ [125]

/-- Comma-joined serialization of array elements; the flag marks the first
element, which takes no leading comma. -/
def jsonArrSerialize : JsonArr → Bool → List Nat
  | .nil, _ => []
  | .cons h t, first =>
    (if first then [] else [44]) ++ jsonSerialize h ++ jsonArrSerialize t false

/-- Comma-joined serialization of object members; the flag marks the first
member, which takes no leading comma. -/
def jsonObjSerialize : JsonObj → Bool → List Nat
  | .nil, _ => []
  | .cons k v t, first =>
    (if first then [] else [44]) ++ (34 :: jsonEscape (strBytes k) ++ [34, 58]) ++
      jsonSerialize v ++ jsonObjSerialize t false
end

/-- Modelled from the spec: the static shared EncoderConfig — the six
header key names (an empty name suppresses its slot) and the optional
formatting strategies for level, time, duration and caller rendering.
Strategies are the caller-supplied callbacks, so they are carried here as
plain functions; a missing strategy selects the documented default. -/
structure GoEncoderConfig where
  messageKey : String
  levelKey : String
  timeKey : String
  nameKey : String
  callerKey : String
  stacktraceKey : String
  encodeLevel : Option (Nat → String)
  encodeTime : Option (Int → String)
  encodeDuration : Option (Int → String)
  encodeCaller : Option (String → String)

/-- The all-empty EncoderConfig: no header keys, no strategies. -/
def emptyEncoderConfig : GoEncoderConfig :=
  ⟨"", "", "", "", "", "", none, none, none, none⟩

/-- The seconds duration strategy: the nanosecond count rendered as
seconds, a fractional decimal. -/
def secondsDurationEncoder (d : Int) : String := formatDecimal d 9

/-- The epoch time strategy: nanoseconds since epoch rendered as seconds,
a fractional decimal. -/
def epochTimeEncoder (t : Int) : String := formatDecimal t 9

/-- The configuration the test file calls its default one: all header keys
empty, the epoch time strategy and the seconds duration strategy. -/
def defaultTestConfig : GoEncoderConfig :=
  { emptyEncoderConfig with
      encodeTime := some epochTimeEncoder
      encodeDuration := some secondsDurationEncoder }

/-- Lowercase level names in severity order, for the unconfigured level
strategy. -/
def levelText : Nat → String
  | 0 => "debug"
  | 1 => "info"
  | 2 => "warn"
  | 3 => "error"
  | 4 => "dpanic"
  | 5 => "panic"
  | _ => "fatal"

/-- Duration rendering: the numeric value through the configured duration
strategy; when none is configured the default is the plain integer
nanosecond count. -/
def durRender (cfg : GoEncoderConfig) (d : Int) : String :=
  match cfg.encodeDuration with
  | some f => f d
  | none => toString d

/-- Timestamp rendering: the numeric value through the configured time
strategy; when none is configured the default is nanoseconds since
epoch. -/
def timeRender (cfg : GoEncoderConfig) (t : Int) : String :=
  match cfg.encodeTime with
  | some f => f t
  | none => toString t

/-- Level rendering through the configured level strategy, defaulting to
the lowercase level name. -/
def levelRender (cfg : GoEncoderConfig) (l : Nat) : String :=
  match cfg.encodeLevel with
  | some f => f l
  | none => levelText l

/-- Caller rendering through the configured caller strategy, defaulting to
the caller description itself. -/
def callerRender (cfg : GoEncoderConfig) (c : String) : String :=
  match cfg.encodeCaller with
  | some f => f c
  | none => c

/-- Modelled from the spec: the comma placement of the composite encoder.
Before a value is appended in an array context the last buffer byte is
inspected; right after an opening bracket or brace, a key-value equals
sign, a comma, or a space no separator is due, otherwise a comma is
written.  An empty buffer takes no separator. -/
def addElementSeparator (buf : List Nat) : List Nat :=
  match buf.getLast? with
  | none => buf
  | some b => if b == 123 || b == 91 || b == 61 || b == 44 || b == 32 then buf else buf ++ [44]

/-- Append a boolean token. -/
def appendBoolVal (buf : List Nat) (b : Bool) : List Nat :=
  addElementSeparator buf ++ strBytes (if b then "true" else "false")

/-- Append an integer in plain decimal; every integer width and
signedness of the dispatcher shares this rendering. -/
def appendIntVal (buf : List Nat) (i : Int) : List Nat :=
  addElementSeparator buf ++ strBytes (toString i)

/-- Append a float rendering. -/
def appendFloatVal (buf : List Nat) (f : GoFloat) : List Nat :=
  addElementSeparator buf ++ strBytes (formatFloat f)

/-- Append a complex number in the quoted real+imagi form, with an
explicit plus sign when the imaginary part is not negative. -/
def appendComplexVal (buf : List Nat) (re im : GoFloat) : List Nat :=
  addElementSeparator buf ++ ([34] ++ strBytes (formatFloat re) ++
    (if goFloatNonNeg im then [43] else []) ++ strBytes (formatFloat im) ++ [105, 34])

/-- Append string data: double quoted, escaped through the string path of
the escaper. -/
def appendStringVal (buf : List Nat) (s : String) : List Nat :=
  addElementSeparator buf ++ ([34] ++ safeAddString (strBytes s) ++ [34])

/-- Append raw byte data: double quoted, escaped through the byte path of
the escaper. -/
def appendByteStringVal (buf : List Nat) (bs : List Nat) : List Nat :=
  addElementSeparator buf ++ ([34] ++ safeAddByteString bs ++ [34])

/-- Append a duration through the duration rendering. -/
def appendDurationVal (cfg : GoEncoderConfig) (buf : List Nat) (d : Int) : List Nat :=
  addElementSeparator buf ++ strBytes (durRender cfg d)

/-- Append a timestamp through the time rendering. -/
def appendTimeVal (cfg : GoEncoderConfig) (buf : List Nat) (t : Int) : List Nat :=
  addElementSeparator buf ++ strBytes (timeRender cfg t)

/-- Append a fallback-serialized value.  The structural conversion runs
first; on failure the buffer is returned untouched together with the
error, so a failing value contributes no bytes at all. -/
def appendReflectedVal (buf : List Nat) (r : Except String JsonVal) :
    List Nat × Option String :=
  match r with
  | .error e => (buf, some e)
  | .ok j => (addElementSeparator buf ++ jsonSerialize j, none)

mutual
/-- Modelled from the spec: one element appended inside an array context
through the per-kind Append operations.  A nested array carries the
elements its marshaler appends plus the error the marshaler returns, if
any; a reflected element carries the outcome of its structural
conversion. -/
inductive ArrEl where
  | boolE (b : Bool) : ArrEl
  | intE (i : Int) : ArrEl
  | floatE (f : GoFloat) : ArrEl
  | cplxE (re im : GoFloat) : ArrEl
  | strE (s : String) : ArrEl
  | bytesE (bs : List Nat) : ArrEl
  | durE (d : Int) : ArrEl
  | timeE (t : Int) : ArrEl
  | reflE (r : Except String JsonVal) : ArrEl
  | arrE (inner : ArrList) (err : Option String) : ArrEl

/-- A sequence of array elements, as a bespoke list so that recursion over
nested arrays is structural. -/
inductive ArrList where
  | nil : ArrList
  | cons (hd : ArrEl) (tl : ArrList) : ArrList
end

mutual
/-- Append one array element to the buffer.  A failing reflected element
appends nothing; a nested array always opens and closes its bracket
around whatever its marshaler appended, whether or not the marshaler
failed. -/
def appendArrEl (cfg : GoEncoderConfig) (buf : List Nat) : ArrEl → List Nat
  | .boolE b => appendBoolVal buf b
  | .intE i => appendIntVal buf i
  | .floatE f => appendFloatVal buf f
  | .cplxE re im => appendComplexVal buf re im
  | .strE s => appendStringVal buf s
  | .bytesE bs => appendByteStringVal buf bs
  | .durE d => appendDurationVal cfg buf d
  | .timeE t => appendTimeVal cfg buf t
  | .reflE r => (appendReflectedVal buf r).1
  | .arrE inner _ => appendArrList cfg (addElementSeparator buf ++ [91]) inner ++ [93]

/-- Append a sequence of array elements left to right. -/
def appendArrList (cfg : GoEncoderConfig) (buf : List Nat) : ArrList → List Nat
  | .nil => buf
  | .cons h t => appendArrList cfg (appendArrEl cfg buf h) t
end

/-- Concatenation of element sequences. -/
def ArrList.app : ArrList → ArrList → ArrList
  | .nil, l => l
  | .cons h t, l => .cons h (t.app l)

/-- Modelled from the spec: the payload of one field for the primitive
dispatcher — one constructor per supported value kind.  The two float
widths are kept apart because the dispatcher has one entry point for
each. -/
inductive FieldVal where
  | boolV (b : Bool) : FieldVal
  | intV (i : Int) : FieldVal
  | float64V (f : GoFloat) : FieldVal
  | float32V (f : GoFloat) : FieldVal
  | cplxV (re im : GoFloat) : FieldVal
  | strV (s : String) : FieldVal
  | byteStrV (bs : List Nat) : FieldVal
  | binV (bs : List Nat) : FieldVal
  | durV (d : Int) : FieldVal
  | timeV (t : Int) : FieldVal
  | reflV (r : Except String JsonVal) : FieldVal
  | arrV (inner : ArrList) (err : Option String) : FieldVal

/-- Write the field key: the key escaped by the same rule as string
values, followed by the equals sign.  No separator is consulted and no
quotes are written around the key. -/
def addKey (buf : List Nat) (k : String) : List Nat :=
  buf ++ safeAddString (strBytes k) ++ [61]

/-- Modelled from the spec: the per-kind Add operation of the primitive
dispatcher.  Writes key, equals sign and rendering; a binary blob goes
through the string path as quoted base64 text; a reflected value is
converted first and on failure the operation returns the error with the
buffer untouched; an array kind opens a bracket, runs the marshaler and
always closes the bracket, handing the marshaler error back. -/
def addField (cfg : GoEncoderConfig) (buf : List Nat) (k : String) :
    FieldVal → List Nat × Option String
  | .boolV b => (appendBoolVal (addKey buf k) b, none)
  | .intV i => (appendIntVal (addKey buf k) i, none)
  | .float64V f => (appendFloatVal (addKey buf k) f, none)
  | .float32V f => (appendFloatVal (addKey buf k) f, none)
  | .cplxV re im => (appendComplexVal (addKey buf k) re im, none)
  | .strV s => (appendStringVal (addKey buf k) s, none)
  | .byteStrV bs => (appendByteStringVal (addKey buf k) bs, none)
  | .binV bs => (appendByteStringVal (addKey buf k) (base64Enc bs), none)
  | .durV d => (appendDurationVal cfg (addKey buf k) d, none)
  | .timeV t => (appendTimeVal cfg (addKey buf k) t, none)
  | .reflV (.error e) => (buf, some e)
  | .reflV (.ok j) => (addKey buf k ++ jsonSerialize j, none)
  | .arrV inner err => (appendArrList cfg (addElementSeparator (addKey buf k) ++ [91]) inner ++ [93], err)

/-- A field whose Add operation writes its rendering; only a reflected
value whose structural conversion fails writes nothing. -/
def fieldOk : FieldVal → Bool
  | .reflV (.error _) => false
  | _ => true

/-- The bytes one field contributes on its own, measured from an empty
buffer. -/
def fieldRender (cfg : GoEncoderConfig) (k : String) (v : FieldVal) : List Nat :=
  (addField cfg [] k v).1

/-- Modelled from the spec: the entry descriptor — timestamp in
nanoseconds since epoch, severity level, logger name, message, optional
caller location, stack trace text with the empty text meaning none. -/
structure GoEntry where
  timeNs : Int
  level : Nat
  loggerName : String
  message : String
  caller : Option String
  stack : String

/-- The fixed two-character separator of the entry composer: two
spaces, written only when the line already has content. -/
def addSep (buf : List Nat) : List Nat :=
  if buf.isEmpty then buf else buf ++ [32, 32]

/-- One header slot: when its condition holds, the rendered text is
appended after the separator rule; otherwise the line is unchanged. -/
def addHeaderItem (buf : List Nat) (cond : Bool) (s : String) : List Nat :=
  if cond then addSep buf ++ strBytes s else buf

/-- Modelled from the spec: the entry composer.  Header slots are walked
in the fixed declared order time, level, logger name, message, caller,
stack trace; a slot renders if its configured key name is non-empty (and
its datum is present), each rendered item prefixed by the two-space
separator whenever the line already has content.  Then every field is
appended in the supplied order behind the same separator, and the line is
terminated by exactly one newline. -/
def encodeEntry (cfg : GoEncoderConfig) (ent : GoEntry)
    (fields : List (String × FieldVal)) : List Nat :=
  let buf : List Nat := []
  let buf := addHeaderItem buf (!cfg.timeKey.isEmpty) (timeRender cfg ent.timeNs)
  let buf := addHeaderItem buf (!cfg.levelKey.isEmpty) (levelRender cfg ent.level)
  let buf := addHeaderItem buf (!cfg.nameKey.isEmpty && !ent.loggerName.isEmpty) ent.loggerName
  let buf := addHeaderItem buf (!cfg.messageKey.isEmpty) ent.message
  let buf := addHeaderItem buf (!cfg.callerKey.isEmpty && ent.caller.isSome)
    (callerRender cfg (ent.caller.getD ""))
  let buf := addHeaderItem buf (!cfg.stacktraceKey.isEmpty && !ent.stack.isEmpty) ent.stack
  let buf := fields.foldl (fun b kv => (addField cfg (addSep b) kv.1 kv.2).1) buf
  buf ++ [10]

/-- The rendering the claim describes for a composed line: the first item
verbatim, every later item prefixed by the fixed two-character separator. -/
def sepJoin : List (List Nat) → List Nat
  | [] => []
  | x :: xs => xs.foldl (fun a r => a ++ [32, 32] ++ r) x

/-- Modelled from the spec: the pool of growable buffers, indexed by
checkout order.  Buffer identity is the index, so aliasing between two
encoder instances is observable: two encoders sharing an index share a
buffer, two distinct indices are independently allocated storage. -/
structure BufStore where
  bufs : List (List Nat)

/-- Modelled from the spec: an encoder instance — a reference to the
shared configuration and a reference to the one buffer it owns. -/
structure EncRef where
  cfgId : Nat
  bufId : Nat

/-- Read the buffer an encoder owns. -/
def getBuf (s : BufStore) (r : EncRef) : List Nat :=
  s.bufs.getD r.bufId []

/-- Replace the buffer an encoder owns. -/
def writeBuf (s : BufStore) (r : EncRef) (b : List Nat) : BufStore :=
  ⟨s.bufs.set r.bufId b⟩

/-- Modelled from the spec: Clone allocates a fresh buffer initialized
with the current content of the source and returns a new encoder that
keeps the configuration reference and owns the fresh buffer. -/
def cloneEnc (s : BufStore) (r : EncRef) : BufStore × EncRef :=
  (⟨s.bufs ++ [getBuf s r]⟩, ⟨r.cfgId, s.bufs.length⟩)

/-- One Add operation performed on the encoder behind a reference: the
field is appended to the buffer the reference owns. -/
def addFieldRef (cfg : GoEncoderConfig) (s : BufStore) (r : EncRef)
    (k : String) (v : FieldVal) : BufStore :=
  writeBuf s r (addField cfg (getBuf s r) k v).1

/-- A sequence of Add operations on one encoder reference. -/
def addFieldsRef (cfg : GoEncoderConfig) (s : BufStore) (r : EncRef) :
    List (String × FieldVal) → BufStore
  | [] => s
  | kv :: rest => addFieldsRef cfg (addFieldRef cfg s r kv.1 kv.2) r rest

/-- Appending to a non-empty buffer does not change which byte is last. -/
theorem addElementSeparator_append (pre s : List Nat) (h : s ≠ []) :
    addElementSeparator (pre ++ s) = pre ++ addElementSeparator s := by
  unfold addElementSeparator
  rw [List.getLast?_append_of_ne_nil pre h]
  cases hl : s.getLast? with
  | none => simp [List.getLast?_eq_none_iff] at hl; exact absurd hl h
  | some b =>
    by_cases hb : (b == 123 || b == 91 || b == 61 || b == 44 || b == 32) = true
    · simp [hb]
    · simp only [Bool.not_eq_true] at hb
      simp [hb]

/-- The separator step keeps a non-empty buffer non-empty. -/
theorem addElementSeparator_ne_nil (s : List Nat) (h : s ≠ []) :
    addElementSeparator s ≠ [] := by
  unfold addElementSeparator
  cases hl : s.getLast? with
  | none => exact h
  | some b =>
    by_cases hb : (b == 123 || b == 91 || b == 61 || b == 44 || b == 32) = true
    · simp [hb, h]
    · simp only [Bool.not_eq_true] at hb
      simp [hb]

/-- Right after a key the last buffer byte is the equals sign, so the
separator step writes nothing. -/
theorem addElementSeparator_after_eq (xs : List Nat) :
    addElementSeparator (xs ++ [61]) = xs ++ [61] := by
  unfold addElementSeparator
  rw [List.getLast?_concat]
  simp

/-- Every separator-then-payload appender only inspects the last byte of
the buffer, so a non-empty suffix determines its behaviour. -/
theorem sep_payload_append (pre s tail : List Nat) (h : s ≠ []) :
    addElementSeparator (pre ++ s) ++ tail = pre ++ (addElementSeparator s ++ tail) := by
  rw [addElementSeparator_append pre s h, List.append_assoc]

mutual
/-- Appending one array element commutes with a non-empty buffer prefix,
and the element leaves the buffer non-empty. -/
theorem appendArrEl_split (cfg : GoEncoderConfig) (e : ArrEl) :
    ∀ pre s : List Nat, s ≠ [] →
      appendArrEl cfg (pre ++ s) e = pre ++ appendArrEl cfg s e ∧
        appendArrEl cfg s e ≠ [] :=
  match e with
  | .boolE b => by
    intro pre s h
    constructor
    · simp only [appendArrEl, appendBoolVal, sep_payload_append pre s _ h]
    · exact List.append_ne_nil_of_left_ne_nil (addElementSeparator_ne_nil s h) _
  | .intE i => by
    intro pre s h
    constructor
    · simp only [appendArrEl, appendIntVal, sep_payload_append pre s _ h]
    · exact List.append_ne_nil_of_left_ne_nil (addElementSeparator_ne_nil s h) _
  | .floatE f => by
    intro pre s h
    constructor
    · simp only [appendArrEl, appendFloatVal, sep_payload_append pre s _ h]
    · exact List.append_ne_nil_of_left_ne_nil (addElementSeparator_ne_nil s h) _
  | .cplxE re im => by
    intro pre s h
    constructor
    · simp only [appendArrEl, appendComplexVal, sep_payload_append pre s _ h]
    · exact List.append_ne_nil_of_left_ne_nil (addElementSeparator_ne_nil s h) _
  | .strE str => by
    intro pre s h
    constructor
    · simp only [appendArrEl, appendStringVal, sep_payload_append pre s _ h]
    · exact List.append_ne_nil_of_left_ne_nil (addElementSeparator_ne_nil s h) _
  | .bytesE bs => by
    intro pre s h
    constructor
    · simp only [appendArrEl, appendByteStringVal, sep_payload_append pre s _ h]
    · exact List.append_ne_nil_of_left_ne_nil (addElementSeparator_ne_nil s h) _
  | .durE d => by
    intro pre s h
    constructor
    · simp only [appendArrEl, appendDurationVal, sep_payload_append pre s _ h]
    · exact List.append_ne_nil_of_left_ne_nil (addElementSeparator_ne_nil s h) _
  | .timeE t => by
    intro pre s h
    constructor
    · simp only [appendArrEl, appendTimeVal, sep_payload_append pre s _ h]
    · exact List.append_ne_nil_of_left_ne_nil (addElementSeparator_ne_nil s h) _
  | .reflE r => by
    intro pre s h
    cases r with
    | error e => exact ⟨rfl, h⟩
    | ok j =>
      constructor
      · simp only [appendArrEl, appendReflectedVal, sep_payload_append pre s _ h]
      · exact List.append_ne_nil_of_left_ne_nil (addElementSeparator_ne_nil s h) _
  | .arrE inner err => by
    intro pre s h
    have hinner := appendArrList_split cfg inner
    have hs : addElementSeparator s ++ [91] ≠ [] :=
      List.append_ne_nil_of_right_ne_nil _ (by simp)
    constructor
    · simp only [appendArrEl]
      rw [addElementSeparator_append pre s h, List.append_assoc,
        (hinner pre (addElementSeparator s ++ [91]) hs).1, List.append_assoc]
    · exact List.append_ne_nil_of_right_ne_nil _ (by simp)

/-- Appending an element sequence commutes with a non-empty buffer prefix,
and the sequence leaves the buffer non-empty. -/
theorem appendArrList_split (cfg : GoEncoderConfig) (l : ArrList) :
    ∀ pre s : List Nat, s ≠ [] →
      appendArrList cfg (pre ++ s) l = pre ++ appendArrList cfg s l ∧
        appendArrList cfg s l ≠ [] :=
  match l with
  | .nil => by intro pre s h; exact ⟨rfl, h⟩
  | .cons hd tl => by
    intro pre s h
    have hhd := appendArrEl_split cfg hd pre s h
    have htl := appendArrList_split cfg tl pre (appendArrEl cfg s hd) hhd.2
    constructor
    · simp only [appendArrList]
      rw [hhd.1, htl.1]
    · exact htl.2
end

/-- A key write is never empty, since it ends with the equals sign. -/
theorem key_bytes_ne_nil (k : String) : safeAddString (strBytes k) ++ [61] ≠ [] :=
  List.append_ne_nil_of_right_ne_nil _ (by simp)

/-- The per-kind Add operation writes the same bytes after any buffer
content and returns a buffer-independent error: its result is the prior
content followed by the rendering the field produces on its own. -/
theorem addField_split (cfg : GoEncoderConfig) (buf : List Nat) (k : String) (v : FieldVal) :
    addField cfg buf k v = (buf ++ fieldRender cfg k v, (addField cfg [] k v).2) := by
  have hk := key_bytes_ne_nil k
  cases v with
  | boolV b =>
    simp only [addField, fieldRender, addKey, List.nil_append, appendBoolVal,
      List.append_assoc]
    rw [sep_payload_append buf _ _ hk]
  | intV i =>
    simp only [addField, fieldRender, addKey, List.nil_append, appendIntVal,
      List.append_assoc]
    rw [sep_payload_append buf _ _ hk]
  | float64V f =>
    simp only [addField, fieldRender, addKey, List.nil_append, appendFloatVal,
      List.append_assoc]
    rw [sep_payload_append buf _ _ hk]
  | float32V f =>
    simp only [addField, fieldRender, addKey, List.nil_append, appendFloatVal,
      List.append_assoc]
    rw [sep_payload_append buf _ _ hk]
  | cplxV re im =>
    simp only [addField, fieldRender, addKey, List.nil_append, appendComplexVal,
      List.append_assoc]
    rw [sep_payload_append buf _ _ hk]
  | strV s =>
    simp only [addField, fieldRender, addKey, List.nil_append, appendStringVal,
      List.append_assoc]
    rw [sep_payload_append buf _ _ hk]
  | byteStrV bs =>
    simp only [addField, fieldRender, addKey, List.nil_append, appendByteStringVal,
      List.append_assoc]
    rw [sep_payload_append buf _ _ hk]
  | binV bs =>
    simp only [addField, fieldRender, addKey, List.nil_append, appendByteStringVal,
      List.append_assoc]
    rw [sep_payload_append buf _ _ hk]
  | durV d =>
    simp only [addField, fieldRender, addKey, List.nil_append, appendDurationVal,
      List.append_assoc]
    rw [sep_payload_append buf _ _ hk]
  | timeV t =>
    simp only [addField, fieldRender, addKey, List.nil_append, appendTimeVal,
      List.append_assoc]
    rw [sep_payload_append buf _ _ hk]
  | reflV r =>
    cases r with
    | error e => simp [addField, fieldRender]
    | ok j =>
      simp only [addField, fieldRender, addKey, List.nil_append, List.append_assoc]
  | arrV inner err =>
    simp only [addField, fieldRender, addKey, List.nil_append]
    have h91 : addElementSeparator (safeAddString (strBytes k) ++ [61]) ++ [91] ≠ [] :=
      List.append_ne_nil_of_right_ne_nil _ (by simp)
    rw [List.append_assoc buf, addElementSeparator_append buf _ hk, List.append_assoc,
      (appendArrList_split cfg inner buf _ h91).1, List.append_assoc]

/-- A two-byte acceptance pins the leader range. -/
theorem accept2_range (b0 b1 : Nat) (h : accept2 b0 b1 = true) :
    194 ≤ b0 ∧ b0 ≤ 223 := by
  simp only [accept2, contB, Bool.and_eq_true, decide_eq_true_eq] at h
  omega

/-- A three-byte acceptance pins the leader range. -/
theorem accept3_range (b0 b1 b2 : Nat) (h : accept3 b0 b1 b2 = true) :
    224 ≤ b0 ∧ b0 ≤ 239 := by
  simp only [accept3, contB, Bool.and_eq_true, Bool.or_eq_true, beq_iff_eq,
    decide_eq_true_eq] at h
  omega

/-- A four-byte acceptance pins the leader range. -/
theorem accept4_range (b0 b1 b2 b3 : Nat) (h : accept4 b0 b1 b2 b3 = true) :
    240 ≤ b0 ∧ b0 ≤ 244 := by
  simp only [accept4, contB, Bool.and_eq_true, Bool.or_eq_true, beq_iff_eq,
    decide_eq_true_eq] at h
  omega

/-- Leaders of three- and four-byte sequences never start a two-byte
sequence. -/
theorem accept2_false_of_ge (b0 b1 : Nat) (h : 224 ≤ b0) : accept2 b0 b1 = false := by
  cases hc : accept2 b0 b1 with
  | false => rfl
  | true => have := accept2_range b0 b1 hc; omega

/-- Leaders of four-byte sequences never start a three-byte sequence. -/
theorem accept3_false_of_ge (b0 b1 b2 : Nat) (h : 240 ≤ b0) :
    accept3 b0 b1 b2 = false := by
  cases hc : accept3 b0 b1 b2 with
  | false => rfl
  | true => have := accept3_range b0 b1 b2 hc; omega

/-- The string path and the byte path of the escaper perform the same
transform on the same underlying bytes. -/
theorem safeAdd_paths_agree (bs : List Nat) :
    safeAddString bs = safeAddByteString bs := by
  induction bs using safeAddString.induct
  case case1 => rfl
  all_goals rw [safeAddString.eq_def, safeAddByteString.eq_def]
  all_goals dsimp only
  all_goals split_ifs
  all_goals simp_all

/-- C2: for every input byte sequence the escaper backslash-escapes
backslash and double quote, uses the short escapes for newline, carriage
return and tab, uses lowercase backslash-u-00 escapes for the other
control characters, emits every other printable ASCII byte verbatim (in
particular the angle brackets 60 and 62 and the ampersand 38), passes
every valid multi-byte UTF-8 sequence through unmodified, replaces any
byte at which no valid sequence starts by the escaped Unicode replacement
character without ever failing, and performs the identical transform on
the string path and on the byte path. -/
theorem c2_escaping_rules :
    (∀ bs : List Nat, safeAddString bs = safeAddByteString bs) ∧
    (∀ bs, safeAddByteString (92 :: bs) = 92 :: 92 :: safeAddByteString bs) ∧
    (∀ bs, safeAddByteString (34 :: bs) = 92 :: 34 :: safeAddByteString bs) ∧
    (∀ bs, safeAddByteString (10 :: bs) = 92 :: 110 :: safeAddByteString bs) ∧
    (∀ bs, safeAddByteString (13 :: bs) = 92 :: 114 :: safeAddByteString bs) ∧
    (∀ bs, safeAddByteString (9 :: bs) = 92 :: 116 :: safeAddByteString bs) ∧
    (∀ b bs, b < 32 → b ≠ 10 → b ≠ 13 → b ≠ 9 →
      safeAddByteString (b :: bs) =
        92 :: 117 :: 48 :: 48 :: hexDigit (b / 16) :: hexDigit (b % 16) ::
          safeAddByteString bs) ∧
    (∀ b bs, 32 ≤ b → b < 128 → b ≠ 92 → b ≠ 34 →
      safeAddByteString (b :: bs) = b :: safeAddByteString bs) ∧
    (∀ b0 b1 bs, accept2 b0 b1 = true →
      safeAddByteString (b0 :: b1 :: bs) = b0 :: b1 :: safeAddByteString bs) ∧
    (∀ b0 b1 b2 bs, accept3 b0 b1 b2 = true →
      safeAddByteString (b0 :: b1 :: b2 :: bs) = b0 :: b1 :: b2 :: safeAddByteString bs) ∧
    (∀ b0 b1 b2 b3 bs, accept4 b0 b1 b2 b3 = true →
      safeAddByteString (b0 :: b1 :: b2 :: b3 :: bs) =
        b0 :: b1 :: b2 :: b3 :: safeAddByteString bs) ∧
    (∀ b0 rest, 128 ≤ b0 → headValid b0 rest = false →
      safeAddByteString (b0 :: rest) = replacementEscape ++ safeAddByteString rest) := by
  refine ⟨safeAdd_paths_agree, ?_, ?_, ?_, ?_, ?_, ?_, ?_, ?_, ?_, ?_, ?_⟩
  · intro bs; rw [safeAddByteString.eq_def]; dsimp only; simp [escapeAsciiByte]
  · intro bs; rw [safeAddByteString.eq_def]; dsimp only; simp [escapeAsciiByte]
  · intro bs; rw [safeAddByteString.eq_def]; dsimp only; simp [escapeAsciiByte]
  · intro bs; rw [safeAddByteString.eq_def]; dsimp only; simp [escapeAsciiByte]
  · intro bs; rw [safeAddByteString.eq_def]; dsimp only; simp [escapeAsciiByte]
  · intro b bs h32 h10 h13 h9
    have hb : b < 128 := by omega
    have c1 : ¬(32 ≤ b ∧ b ≠ 92 ∧ b ≠ 34) := by omega
    have c2 : ¬(b = 92 ∨ b = 34) := by omega
    rw [safeAddByteString.eq_def]; dsimp only
    simp [hb, escapeAsciiByte, c1, c2, h10, h13, h9]
  · intro b bs h32 hb h92 h34
    have he : escapeAsciiByte b = [b] := by
      unfold escapeAsciiByte; rw [if_pos ⟨h32, h92, h34⟩]
    rw [safeAddByteString.eq_def]; dsimp only
    simp [hb, he]
  · intro b0 b1 bs h2
    have hb0 := accept2_range b0 b1 h2
    have hn : ¬ b0 < 128 := by omega
    cases bs with
    | nil => rw [safeAddByteString.eq_def]; dsimp only; simp [hn, h2]; rfl
    | cons b2 bs2 =>
      cases bs2 with
      | nil => rw [safeAddByteString.eq_def]; dsimp only; simp [hn, h2]
      | cons b3 bs3 => rw [safeAddByteString.eq_def]; dsimp only; simp [hn, h2]
  · intro b0 b1 b2 bs h3
    have hb0 := accept3_range b0 b1 b2 h3
    have hn : ¬ b0 < 128 := by omega
    have h2 := accept2_false_of_ge b0 b1 hb0.1
    cases bs with
    | nil => rw [safeAddByteString.eq_def]; dsimp only; simp [hn, h2, h3]; rfl
    | cons b3 bs3 => rw [safeAddByteString.eq_def]; dsimp only; simp [hn, h2, h3]
  · intro b0 b1 b2 b3 bs h4
    have hb0 := accept4_range b0 b1 b2 b3 h4
    have hn : ¬ b0 < 128 := by omega
    have h2 := accept2_false_of_ge b0 b1 (by omega)
    have h3 := accept3_false_of_ge b0 b1 b2 hb0.1
    rw [safeAddByteString.eq_def]; dsimp only; simp [hn, h2, h3, h4]
  · intro b0 rest h128 hval
    have hn : ¬ b0 < 128 := by omega
    cases rest with
    | nil => rw [safeAddByteString.eq_def]; dsimp only; simp [hn]; rfl
    | cons b1 rest1 =>
      cases rest1 with
      | nil =>
        simp only [headValid] at hval
        rw [safeAddByteString.eq_def]; dsimp only; simp [hn, hval]
      | cons b2 rest2 =>
        cases rest2 with
        | nil =>
          simp only [headValid, Bool.or_eq_false_iff] at hval
          rw [safeAddByteString.eq_def]; dsimp only; simp [hn, hval.1, hval.2]
        | cons b3 rest3 =>
          simp only [headValid, Bool.or_eq_false_iff] at hval
          rw [safeAddByteString.eq_def]; dsimp only
          simp [hn, hval.1.1, hval.1.2, hval.2]

/-- Witness for C2 at concrete inputs: ASCII with a newline through both
paths, the backspace control byte, the three-byte snowman sequence, and
an encoded surrogate head byte that cannot start a valid sequence. -/
theorem c2_escaping_rules_witness :
    safeAddString (strBytes "foo\n") = safeAddByteString (strBytes "foo\n") ∧
    safeAddByteString (8 :: strBytes "x") =
      92 :: 117 :: 48 :: 48 :: hexDigit (8 / 16) :: hexDigit (8 % 16) ::
        safeAddByteString (strBytes "x") ∧
    safeAddByteString [226, 152, 131] = 226 :: 152 :: 131 :: safeAddByteString [] ∧
    safeAddByteString (237 :: [160, 128]) = replacementEscape ++ safeAddByteString [160, 128] := by
  obtain ⟨h1, _, _, _, _, _, h7, _, _, h10, _, h12⟩ := c2_escaping_rules
  exact ⟨h1 _, h7 8 _ (by decide) (by decide) (by decide) (by decide),
    h10 226 152 131 [] (by decide), h12 237 [160, 128] (by decide) (by decide)⟩

/-- C10: two fields added by consecutive direct per-kind Add calls land
back to back — the final buffer is the prior content followed by the
first rendering followed immediately by the second rendering, with no
separator character between them, for every field kind. -/
theorem c10_consecutive_adds (cfg : GoEncoderConfig) (buf : List Nat)
    (k1 k2 : String) (v1 v2 : FieldVal) :
    (addField cfg (addField cfg buf k1 v1).1 k2 v2).1 =
      buf ++ fieldRender cfg k1 v1 ++ fieldRender cfg k2 v2 := by
  rw [addField_split cfg buf k1 v1]
  dsimp only
  rw [addField_split cfg (buf ++ fieldRender cfg k1 v1) k2 v2]

/-- C7: a failing fallback serialization returns an explicit error and
contributes zero bytes — the buffer, including every sibling field
already written, is returned unchanged; in particular after a successful
field, and at the concrete buffer the test file uses. -/
theorem c7_reflected_failure :
    (∀ (cfg : GoEncoderConfig) (buf : List Nat) (k e : String),
      addField cfg buf k (.reflV (.error e)) = (buf, some e)) ∧
    (∀ (cfg : GoEncoderConfig) (buf : List Nat) (k1 : String) (v1 : FieldVal) (k2 e : String),
      addField cfg (addField cfg buf k1 v1).1 k2 (.reflV (.error e)) =
        ((addField cfg buf k1 v1).1, some e)) ∧
    addField defaultTestConfig (strBytes "foo=\"bar\"") "k" (.reflV (.error "no")) =
      (strBytes "foo=\"bar\"", some "no") :=
  ⟨fun _ _ _ _ => rfl, fun _ _ _ _ _ _ => rfl, rfl⟩

/-- C8: through the fallback serializer a null value renders as the
literal token null — alone, as the value of a reflected field behind its
key, and as elements nested inside an array, as in the test entry where
the array holding an empty object, two nulls and the number two renders
with the two null element tokens. -/
theorem c8_null_rendering :
    jsonSerialize .null = strBytes "null" ∧
    (∀ (cfg : GoEncoderConfig) (buf : List Nat) (k : String),
      (addField cfg buf k (.reflV (.ok .null))).1 =
        buf ++ safeAddString (strBytes k) ++ [61] ++ strBytes "null") ∧
    jsonSerialize (.arrJ (.cons (.objJ .nil) (.cons .null (.cons .null
      (.cons (.numJ 2) .nil))))) = strBytes "[" ++ [123, 125] ++ strBytes ",null,null,2]" := by
  refine ⟨by decide, ?_, by decide⟩
  intro cfg buf k
  have hnull : jsonSerialize JsonVal.null = strBytes "null" := by decide
  dsimp only [addField]
  rw [hnull, addKey]

/-- C9 counterexample: a key holding a backslash is escaped but not
double-quoted — the bool field with key backslash renders the escaped
bare key before the equals sign, not the double-quoted form the claim
states. -/
theorem c9_counterexample :
    (addField defaultTestConfig [] "k\\" (.boolV true)).1 = strBytes "k\\\\=true" ∧
    (addField defaultTestConfig [] "k\\" (.boolV true)).1 ≠
      strBytes "\"k\\\\\"=true" := by decide

/-- C9 amended: the key is escaped by the same escaper rule as string
values, but the escaped key is written bare before the equals sign,
without surrounding double quotes; string values go through the same
escaper wrapped in double quotes. -/
theorem c9_key_escaping (cfg : GoEncoderConfig) (buf : List Nat) (k s : String) (b : Bool) :
    (addField cfg buf k (.boolV b)).1 =
      buf ++ safeAddString (strBytes k) ++ [61] ++ strBytes (if b then "true" else "false") ∧
    (addField cfg buf k (.strV s)).1 =
      buf ++ safeAddString (strBytes k) ++ [61] ++
        ([34] ++ safeAddString (strBytes s) ++ [34]) := by
  constructor
  · simp only [addField, appendBoolVal, addKey, addElementSeparator_after_eq]
  · simp only [addField, appendStringVal, addKey, addElementSeparator_after_eq]

/-- C4 counterexample: under the all-empty EncoderConfig a duration of
one microsecond renders as the integer nanosecond count 1000, not as the
fractional seconds 0.000001 the claim states. -/
theorem c4_counterexample :
    encodeEntry emptyEncoderConfig ⟨0, 0, "mylogger", "things happened", none, ""⟩
      [("bar", .durV 1000)] = strBytes "bar=1000\n" ∧
    strBytes "bar=1000\n" ≠ strBytes "bar=0.000001\n" := by decide

/-- C4 amended: a duration field renders its numeric value through the
configured duration strategy, and when no duration strategy is
configured the default rendering is the plain integer nanosecond
count. -/
theorem c4_duration_rendering (cfg : GoEncoderConfig) (buf : List Nat) (k : String) (d : Int) :
    (∀ f, cfg.encodeDuration = some f →
      (addField cfg buf k (.durV d)).1 =
        buf ++ safeAddString (strBytes k) ++ [61] ++ strBytes (f d)) ∧
    (cfg.encodeDuration = none →
      (addField cfg buf k (.durV d)).1 =
        buf ++ safeAddString (strBytes k) ++ [61] ++ strBytes (toString d)) := by
  constructor
  · intro f hf
    simp only [addField, appendDurationVal, durRender, hf, addKey,
      addElementSeparator_after_eq]
  · intro hf
    simp only [addField, appendDurationVal, durRender, hf, addKey,
      addElementSeparator_after_eq]

/-- Witness for C4: one microsecond through the configured seconds
strategy renders 0.000001, and under the empty configuration it renders
the nanosecond count 1000. -/
theorem c4_duration_rendering_witness :
    (addField defaultTestConfig [] "k" (.durV 1000)).1 = strBytes "k=0.000001" ∧
    (addField emptyEncoderConfig [] "k" (.durV 1000)).1 = strBytes "k=1000" := by
  constructor
  · rw [(c4_duration_rendering defaultTestConfig [] "k" 1000).1 secondsDurationEncoder rfl]
    decide
  · rw [(c4_duration_rendering emptyEncoderConfig [] "k" 1000).2 rfl]
    decide

/-- C3 counterexample: one appended element whose encoding fails — a
nested array whose marshaler appends true and then returns an error —
is not omitted: the output holds that element with its partial content,
not the zero elements the claim states for one failing element. -/
theorem c3_counterexample :
    (addField defaultTestConfig [] "array"
        (.arrV (.cons (.arrE (.cons (.boolE true) .nil) (some "fail")) .nil) none)).1 =
      strBytes "array=[[true]]" ∧
    strBytes "array=[[true]]" ≠ strBytes "array=[]" := by decide

/-- A failing reflected element anywhere in an element sequence is
dropped without trace: the sequence renders exactly as the sequence
without it. -/
theorem arrList_refl_error_omitted (cfg : GoEncoderConfig) (e : String) :
    ∀ (pre post : ArrList) (buf : List Nat),
      appendArrList cfg buf (pre.app (.cons (.reflE (.error e)) post)) =
        appendArrList cfg buf (pre.app post)
  | .nil, post, buf => by
    simp [ArrList.app, appendArrList, appendArrEl, appendReflectedVal]
  | .cons hd tl, post, buf => by
    simp only [ArrList.app, appendArrList]
    exact arrList_refl_error_omitted cfg e tl post (appendArrEl cfg buf hd)

/-- C3 amended: a reflected element whose structural conversion fails is
omitted entirely, leaving siblings intact and the brackets well formed,
as in the test where two failing reflected elements yield the empty
array; but a nested array element whose marshaler fails is not omitted —
its bracket is opened and closed around whatever the marshaler appended
before failing, as in the test where two such elements yield two
bracketed true elements. -/
theorem c3_array_failure :
    (∀ (cfg : GoEncoderConfig) (buf : List Nat) (pre post : ArrList) (e : String),
      appendArrList cfg buf (pre.app (.cons (.reflE (.error e)) post)) =
        appendArrList cfg buf (pre.app post)) ∧
    (∀ (cfg : GoEncoderConfig) (buf : List Nat) (inner : ArrList) (err : Option String),
      appendArrEl cfg buf (.arrE inner err) =
        appendArrList cfg (addElementSeparator buf ++ [91]) inner ++ [93]) ∧
    (addField defaultTestConfig [] "array"
        (.arrV (.cons (.reflE (.error "no")) (.cons (.reflE (.error "no")) .nil)) none)).1 =
      strBytes "array=[]" ∧
    (addField defaultTestConfig [] "array"
        (.arrV (.cons (.arrE (.cons (.boolE true) .nil) (some "fail"))
          (.cons (.arrE (.cons (.boolE true) .nil) (some "fail")) .nil)) none)).1 =
      strBytes "array=[[true],[true]]" := by
  exact ⟨fun cfg buf pre post e => arrList_refl_error_omitted cfg e pre post buf,
    fun _ _ _ _ => rfl, by decide, by decide⟩

/-- C5: NaN, positive and negative infinity render as the literal tokens
NaN, +Inf and -Inf through both float entry points, the value ten
billion renders as its plain digits, and integral values render without
a fractional point — generally for every integral value, and in
particular for the value one carried as the decimal ten over ten. -/
theorem c5_float_rendering :
    (∀ m : Nat, formatFloat (.finite (Int.ofNat m) 0) = toString m) ∧
    ((addField defaultTestConfig [] "k" (.float64V (.finite 10000000000 0))).1 =
      strBytes "k=10000000000") ∧
    ((addField defaultTestConfig [] "k" (.float64V .nan)).1 = strBytes "k=NaN") ∧
    ((addField defaultTestConfig [] "k" (.float64V (.inf false))).1 = strBytes "k=+Inf") ∧
    ((addField defaultTestConfig [] "k" (.float64V (.inf true))).1 = strBytes "k=-Inf") ∧
    ((addField defaultTestConfig [] "k" (.float64V (.finite 10 1))).1 = strBytes "k=1") ∧
    ((addField defaultTestConfig [] "k" (.float32V (.finite 10000000000 0))).1 =
      strBytes "k=10000000000") ∧
    ((addField defaultTestConfig [] "k" (.float32V .nan)).1 = strBytes "k=NaN") ∧
    ((addField defaultTestConfig [] "k" (.float32V (.inf false))).1 = strBytes "k=+Inf") ∧
    ((addField defaultTestConfig [] "k" (.float32V (.inf true))).1 = strBytes "k=-Inf") ∧
    ((addField defaultTestConfig [] "k" (.float32V (.finite 10 1))).1 = strBytes "k=1") := by
  refine ⟨?_, by decide, by decide, by decide, by decide, by decide,
    by decide, by decide, by decide, by decide, by decide⟩
  intro m
  have h : ¬ ((m : Int) < 0) := Int.not_lt.mpr (Int.natCast_nonneg m)
  simp [formatFloat, formatDecimal, stripZerosNat, h, String.empty_append]

/-- On a non-empty line the separator step writes the two spaces. -/
theorem addSep_of_ne (b : List Nat) (h : b ≠ []) : addSep b = b ++ [32, 32] := by
  have hb : b.isEmpty = false := by
    cases b with
    | nil => exact absurd rfl h
    | cons x t => rfl
  simp [addSep, hb]

/-- A buffer extended by the separator and anything more is non-empty. -/
theorem app_sep_ne (a b : List Nat) : a ++ [32, 32] ++ b ≠ [] :=
  List.append_ne_nil_of_left_ne_nil (List.append_ne_nil_of_right_ne_nil a (by simp)) b

/-- The field loop of the entry composer, started on a non-empty line,
writes every field rendering behind one two-space separator each. -/
theorem fieldsFold_sep (cfg : GoEncoderConfig) :
    ∀ (fields : List (String × FieldVal)) (buf : List Nat), buf ≠ [] →
      fields.foldl (fun b kv => (addField cfg (addSep b) kv.1 kv.2).1) buf =
        (fields.map (fun kv => fieldRender cfg kv.1 kv.2)).foldl
          (fun a r => a ++ [32, 32] ++ r) buf
  | [], buf, _ => rfl
  | kv :: rest, buf, h => by
    simp only [List.foldl_cons, List.map_cons]
    have h2 : (addField cfg (addSep buf) kv.1 kv.2).1 =
        buf ++ [32, 32] ++ fieldRender cfg kv.1 kv.2 := by
      rw [addField_split]
      dsimp only
      rw [addSep_of_ne buf h]
    rw [h2]
    exact fieldsFold_sep cfg rest (buf ++ [32, 32] ++ fieldRender cfg kv.1 kv.2)
      (app_sep_ne buf (fieldRender cfg kv.1 kv.2))

/-- C1: with all six header key names non-empty and the header data
present, the composed line is exactly the header items in their fixed
declared order — time, level, logger name, message, caller, stack
trace — followed by the field renderings in the supplied order, every
item after the first prefixed by the fixed two-space separator, and
terminated by exactly one trailing newline. -/
theorem c1_encode_entry (cfg : GoEncoderConfig) (ent : GoEntry) (c : String)
    (fields : List (String × FieldVal))
    (ht : cfg.timeKey ≠ "") (hl : cfg.levelKey ≠ "") (hn : cfg.nameKey ≠ "")
    (hm : cfg.messageKey ≠ "") (hc : cfg.callerKey ≠ "") (hs : cfg.stacktraceKey ≠ "")
    (hname : ent.loggerName ≠ "") (hcaller : ent.caller = some c) (hstack : ent.stack ≠ "")
    (htime : strBytes (timeRender cfg ent.timeNs) ≠ []) :
    encodeEntry cfg ent fields =
      sepJoin ([strBytes (timeRender cfg ent.timeNs), strBytes (levelRender cfg ent.level),
        strBytes ent.loggerName, strBytes ent.message,
        strBytes (callerRender cfg c), strBytes ent.stack] ++
        fields.map (fun kv => fieldRender cfg kv.1 kv.2)) ++ [10] := by
  have hbf : ∀ s : String, s ≠ "" → s.isEmpty = false := by
    intro s hne
    cases hh : s.isEmpty with
    | false => rfl
    | true => exact absurd ((String.isEmpty_iff s).mp hh) hne
  have hbt := hbf _ ht
  have hbl := hbf _ hl
  have hbn := hbf _ hn
  have hbm := hbf _ hm
  have hbc := hbf _ hc
  have hbs := hbf _ hs
  have hbname := hbf _ hname
  have hbstack := hbf _ hstack
  unfold encodeEntry
  rw [hcaller]
  simp only [hbt, hbl, hbn, hbm, hbc, hbs, hbname, hbstack, Option.isSome_some,
    Option.getD_some, Bool.not_false, Bool.and_self, addHeaderItem, if_true]
  rw [show addSep ([] : List Nat) = [] from rfl, List.nil_append]
  rw [addSep_of_ne _ htime]
  rw [addSep_of_ne _ (app_sep_ne _ _)]
  rw [addSep_of_ne _ (app_sep_ne _ _)]
  rw [addSep_of_ne _ (app_sep_ne _ _)]
  rw [addSep_of_ne _ (app_sep_ne _ _)]
  rw [fieldsFold_sep cfg fields _ (app_sep_ne _ _)]
  simp only [sepJoin, List.cons_append, List.nil_append, List.foldl_cons]

/-- Witness for C1 at a concrete configuration, entry and two fields:
the line comes out as the header items and fields joined by the
two-space separator with one trailing newline. -/
theorem c1_encode_entry_witness :
    encodeEntry
      ⟨"M", "L", "T", "N", "C", "S",
        some (fun _ => "info"), some (fun _ => "2018-06-19T16:33:42.000Z"),
        some secondsDurationEncoder, some (fun c => c)⟩
      ⟨1529426022000000099, 1, "bob", "lob law", some "foo.go:42", "stacktrace"⟩
      [("so", .strV "passes"), ("answer", .intV 42)] =
      strBytes "2018-06-19T16:33:42.000Z  info  bob  lob law  foo.go:42  stacktrace  so=\"passes\"  answer=42\n" := by
  rw [c1_encode_entry _ _ "foo.go:42" _ (by decide) (by decide) (by decide) (by decide)
    (by decide) (by decide) (by decide) rfl (by decide) (by decide)]
  decide

/-- Every Add operation performed through one encoder reference leaves
the buffer owned by any other reference untouched. -/
theorem addFieldsRef_frame (cfg : GoEncoderConfig) :
    ∀ (ops : List (String × FieldVal)) (s : BufStore) (r q : EncRef),
      q.bufId ≠ r.bufId → getBuf (addFieldsRef cfg s r ops) q = getBuf s q
  | [], _, _, _, _ => rfl
  | kv :: rest, s, r, q, h => by
    rw [addFieldsRef, addFieldsRef_frame cfg rest _ r q h]
    simp [addFieldRef, writeBuf, getBuf, List.getD_eq_getElem?_getD,
      List.getElem?_set_ne (Ne.symm h)]

/-- C6: Clone keeps the configuration reference, allocates a fresh
buffer distinct from the source buffer and initialized with its current
content, and after any sequence of Add operations performed on either
the clone or the original, the buffer content of the other instance is
exactly what it was before the clone. -/
theorem c6_clone_independent (cfg : GoEncoderConfig) (s : BufStore) (r : EncRef)
    (h : r.bufId < s.bufs.length) (ops1 ops2 : List (String × FieldVal)) :
    ((cloneEnc s r).2.cfgId = r.cfgId) ∧
    ((cloneEnc s r).2.bufId ≠ r.bufId) ∧
    (getBuf (cloneEnc s r).1 (cloneEnc s r).2 = getBuf s r) ∧
    (getBuf (cloneEnc s r).1 r = getBuf s r) ∧
    (getBuf (addFieldsRef cfg (cloneEnc s r).1 (cloneEnc s r).2 ops1) r = getBuf s r) ∧
    (getBuf (addFieldsRef cfg (cloneEnc s r).1 r ops2) (cloneEnc s r).2 = getBuf s r) := by
  have hid : (cloneEnc s r).2.bufId = s.bufs.length := rfl
  have hne : (cloneEnc s r).2.bufId ≠ r.bufId := by
    rw [hid]; omega
  have hcopy : getBuf (cloneEnc s r).1 (cloneEnc s r).2 = getBuf s r := by
    simp [getBuf, cloneEnc, List.getD_eq_getElem?_getD, List.getElem?_concat_length]
  have horig : getBuf (cloneEnc s r).1 r = getBuf s r := by
    simp [getBuf, cloneEnc, List.getD_eq_getElem?_getD, List.getElem?_append, h]
  refine ⟨rfl, hne, hcopy, horig, ?_, ?_⟩
  · rw [addFieldsRef_frame cfg ops1 _ _ r (Ne.symm hne), horig]
  · rw [addFieldsRef_frame cfg ops2 _ _ (cloneEnc s r).2 hne, hcopy]

/-- Witness for C6: on a one-buffer store, adding a field on the clone
leaves the original buffer unchanged. -/
theorem c6_clone_independent_witness :
    getBuf (addFieldsRef defaultTestConfig (cloneEnc ⟨[[97]]⟩ ⟨0, 0⟩).1
      (cloneEnc ⟨[[97]]⟩ ⟨0, 0⟩).2 [("k", .boolV true)]) ⟨0, 0⟩ = getBuf ⟨[[97]]⟩ ⟨0, 0⟩ :=
  (c6_clone_independent defaultTestConfig ⟨[[97]]⟩ ⟨0, 0⟩ (by decide)
    [("k", .boolV true)] []).2.2.2.2.1
